import Mathlib

set_option maxRecDepth 100000

/-!
Verification of `src/main/java/as/sirhephaistos/simplybetter/core/db/concat.py`.

The script is:

  output_file = Path("allCrudManagers.txt")
  separator = "-" * 100 + "\n"
  with output_file.open("w", encoding="utf-8") as out:
      for file in sorted(Path(".").glob("*CrudManager.java"), key=lambda p: p.name.lower()):
          with file.open("r", encoding="utf-8", errors="ignore") as f:
              out.write(f.read())
          out.write("\n" + separator)

We model the working directory as a list of named byte files, glob matching by
the fnmatch algorithm (POSIX semantics: case-sensitive, `pathlib` does not
special-case leading dots), UTF-8 decoding with Python's `strict` and `ignore`
error handlers (the `ignore` handler drops the maximal invalid subpart and
resumes), sorting by Python's stable insertion into sorted order on the
lowercased name, and the write loop by explicit accumulation of the text
written to the output handle.
-/

namespace Concat

/-- A file of the working directory: a name and its raw content as bytes
(each a `Nat` below 256). -/
structure PFile where
  name : String
  bytes : List Nat
deriving DecidableEq

/-! ### UTF-8 decoding (Python codec semantics)

`bytes.decode("utf-8")` accepts exactly the RFC 3629 well-formed sequences
(no surrogates, no overlong forms, at most U+10FFFF).  With
`errors="ignore"` an invalid maximal subpart is dropped and decoding resumes
at the following byte; a truncated sequence at end of input is dropped. -/

/-- A continuation byte `0x80..0xBF`. -/
def isCont (b : Nat) : Bool := 128 ≤ b && b ≤ 191

/-- Lower bound for the second byte of a multi-byte sequence, per lead byte
(`0xE0` requires `0xA0..`, `0xF0` requires `0x90..`). -/
def snd2lo (lead : Nat) : Nat := if lead = 224 then 160 else if lead = 240 then 144 else 128

/-- Upper bound for the second byte of a multi-byte sequence, per lead byte
(`0xED` allows `..0x9F`, excluding surrogates; `0xF4` allows `..0x8F`,
capping at U+10FFFF). -/
def snd2hi (lead : Nat) : Nat := if lead = 237 then 159 else if lead = 244 then 143 else 191

/-- Valid second byte for the given lead byte. -/
def isSnd (lead b : Nat) : Bool := snd2lo lead ≤ b && b ≤ snd2hi lead

/-- One decoding step at lead byte `b` followed by `bs`: the code point
emitted (or `none` when the sequence starting at `b` is invalid or
truncated) and how many bytes of `bs` belong to the consumed subpart.
On an invalid sequence the consumed subpart is the maximal one (the lead
plus the valid continuation bytes seen so far), as CPython's handler
receives it. -/
def utf8Step (b : Nat) (bs : List Nat) : Option Nat × Nat :=
  if b < 128 then (some b, 0)
  else if 194 ≤ b && b ≤ 223 then
    match bs with
    | [] => (none, 0)
    | b2 :: _ =>
      if isCont b2 then (some ((b - 192) * 64 + (b2 - 128)), 1)
      else (none, 0)
  else if 224 ≤ b && b ≤ 239 then
    match bs with
    | [] => (none, 0)
    | b2 :: bs2 =>
      if isSnd b b2 then
        match bs2 with
        | [] => (none, 1)
        | b3 :: _ =>
          if isCont b3 then (some ((b - 224) * 4096 + (b2 - 128) * 64 + (b3 - 128)), 2)
          else (none, 1)
      else (none, 0)
  else if 240 ≤ b && b ≤ 244 then
    match bs with
    | [] => (none, 0)
    | b2 :: bs2 =>
      if isSnd b b2 then
        match bs2 with
        | [] => (none, 1)
        | b3 :: bs3 =>
          if isCont b3 then
            match bs3 with
            | [] => (none, 2)
            | b4 :: _ =>
              if isCont b4 then
                (some ((b - 240) * 262144 + (b2 - 128) * 4096 + (b3 - 128) * 64 + (b4 - 128)), 3)
              else (none, 2)
          else (none, 1)
      else (none, 0)
  else (none, 0)

/-- Decoding loop with `errors="ignore"`, recursing on a step count so that
it is structurally recursive; every step consumes at least one byte, so
`bs.length` steps always suffice and the `0` case is never reached from
`utf8DecodeIgnore`. -/
def utf8DecodeIgnoreAux : Nat → List Nat → List Nat
  | _, [] => []
  | 0, _ :: _ => []
  | fuel + 1, b :: bs =>
    match utf8Step b bs with
    | (some c, k) => c :: utf8DecodeIgnoreAux fuel (bs.drop k)
    | (none, k) => utf8DecodeIgnoreAux fuel (bs.drop k)

/-- `bs.decode("utf-8", errors="ignore")` as a list of code points: each
invalid maximal subpart is skipped silently and decoding resumes. -/
def utf8DecodeIgnore (bs : List Nat) : List Nat := utf8DecodeIgnoreAux bs.length bs

/-- Decoding loop with the `strict` handler, recursing on a step count as in
`utf8DecodeIgnoreAux`. -/
def utf8DecodeStrictAux : Nat → List Nat → Option (List Nat)
  | _, [] => some []
  | 0, _ :: _ => none
  | fuel + 1, b :: bs =>
    match utf8Step b bs with
    | (some c, k) => (utf8DecodeStrictAux fuel (bs.drop k)).map (c :: ·)
    | (none, _) => none

/-- `bs.decode("utf-8")` with the default `strict` handler: `none` on the
first invalid sequence (a `UnicodeDecodeError` aborting the run). -/
def utf8DecodeStrict (bs : List Nat) : Option (List Nat) :=
  utf8DecodeStrictAux bs.length bs

/-- UTF-8 encoding of one code point (the output handle was opened with
`encoding="utf-8"`). -/
def utf8EncodeChar (c : Nat) : List Nat :=
  if c < 128 then [c]
  else if c < 2048 then [192 + c / 64, 128 + c % 64]
  else if c < 65536 then [224 + c / 4096, 128 + c / 64 % 64, 128 + c % 64]
  else [240 + c / 262144, 128 + c / 4096 % 64, 128 + c / 64 % 64, 128 + c % 64]

/-- UTF-8 encoding of a list of code points. -/
def utf8Encode (cs : List Nat) : List Nat := (cs.map utf8EncodeChar).flatten

/-! ### Glob matching

`Path(".").glob(pat)` on a single-component pattern keeps exactly the
directory entries whose name matches `pat` under `fnmatch` rules:
`*` matches any (possibly empty) run of characters, `?` any single
character, every other pattern character only itself, case-sensitively. -/

/-- The fnmatch algorithm on explicit character lists: `*` tries every
suffix of the remaining name (the translated regex piece `.*`), `?` any one
character, and any other pattern character only itself. -/
def fnmatchChars : List Char → List Char → Bool
  | [], cs => cs.isEmpty
  | p :: ps, cs =>
    if p = '*' then cs.tails.any (fun t => fnmatchChars ps t)
    else
      match cs with
      | [] => false
      | c :: cs2 => (p == '?' || p == c) && fnmatchChars ps cs2

/-! ### The script itself -/

/-- `output_file = Path("allCrudManagers.txt")`. -/
def output_file : String := "allCrudManagers.txt"

/-- `separator = "-" * 100 + "\n"`, as code points (45 is the dash, 10 the
newline). -/
def separator : List Nat := List.replicate 100 45 ++ [10]

/-- The glob pattern of the script. -/
def globPattern : String := "*CrudManager.java"

/-- Whether a file name is matched by `Path(".").glob("*CrudManager.java")`. -/
def globMatchName (n : String) : Bool := fnmatchChars globPattern.data n.data

/-- `Path(".").glob("*CrudManager.java")`: the matched entries of the working
directory, in directory order. -/
def globFiles (dir : List PFile) : List PFile :=
  dir.filter (fun f => globMatchName f.name)

/-- `p.name.lower()`: the sort key.  (`Char.toLower` lowercases the ASCII
range, which is `str.lower` restricted to ASCII; every name considered in
the claims is ASCII.) -/
def lowerName (s : String) : String := ⟨s.data.map Char.toLower⟩

/-- Python's `str` comparison is lexicographic on code points; `≤` on code
point lists. -/
def natListLe : List Nat → List Nat → Bool
  | [], _ => true
  | _ :: _, [] => false
  | a :: as, b :: bs => if a < b then true else if b < a then false else natListLe as bs

/-- Strict lexicographic comparison on code point lists. -/
def natListLt : List Nat → List Nat → Bool
  | _, [] => false
  | [], _ :: _ => true
  | a :: as, b :: bs => if a < b then true else if b < a then false else natListLt as bs

/-- The code points of the lowercased name of a file. -/
def keyOf (p : PFile) : List Nat := (lowerName p.name).data.map Char.toNat

/-- The comparison used by `sorted(..., key=lambda p: p.name.lower())`:
`p.name.lower() <= q.name.lower()` as Python compares strings. -/
def keyLe (p q : PFile) : Prop := natListLe (keyOf p) (keyOf q) = true

/-- `p.name.lower() < q.name.lower()` as Python compares strings. -/
def keyLt (p q : PFile) : Prop := natListLt (keyOf p) (keyOf q) = true

instance : DecidableRel keyLe := fun _ _ => instDecidableEqBool _ _

instance : DecidableRel keyLt := fun _ _ => instDecidableEqBool _ _

/-- `sorted(Path(".").glob("*CrudManager.java"), key=lambda p: p.name.lower())`:
a stable sort of the matched files by lowercased name (`List.insertionSort`
is stable, as Python's sort is). -/
def sortedFiles (dir : List PFile) : List PFile :=
  List.insertionSort keyLe (globFiles dir)

/-- The `errors=` argument of `open`. -/
inductive ErrMode
  | strict
  | ignore
deriving DecidableEq

/-- `file.open("r", encoding="utf-8", errors=e)` followed by `f.read()`:
the decoded text of the file, or `none` when decoding aborts. -/
def readText : ErrMode → List Nat → Option (List Nat)
  | .strict, bs => utf8DecodeStrict bs
  | .ignore, bs => some (utf8DecodeIgnore bs)

/-- The loop body of the script: for each file in order, write its decoded
text, then write `"\n" + separator`; `out` is the text already written to
the output handle. -/
def concatLoop (e : ErrMode) : List PFile → List Nat → Option (List Nat)
  | [], out => some out
  | f :: fs, out =>
    match readText e f.bytes with
    | none => none
    | some text => concatLoop e fs (out ++ text ++ ([10] ++ separator))

/-- The `mode` argument of `open` for the output file. -/
inductive OpenMode
  | w
  | a

/-- What the output handle holds right after `output_file.open(mode)` when the
file previously held `prev`: mode `"w"` truncates, mode `"a"` would keep the
prior content. -/
def openedContent : OpenMode → List Nat → List Nat
  | .w, _ => []
  | .a, prev => prev

/-- The whole write phase of the script on working directory `dir` when the
output file previously held `prev`: `output_file.open("w", ...)` then the
loop, with `errors="ignore"` on every read.  Returns the full text written. -/
def runOutput (prev : List Nat) (dir : List PFile) : Option (List Nat) :=
  concatLoop .ignore (sortedFiles dir) (openedContent .w prev)

/-- The bytes currently held by the file named `n` (empty when absent). -/
def getBytes (dir : List PFile) (n : String) : List Nat :=
  match dir.find? (fun f => f.name == n) with
  | some f => f.bytes
  | none => []

/-- The directory after the file named `n` is created or overwritten with
content `bs`. -/
def setFile (dir : List PFile) (n : String) (bs : List Nat) : List PFile :=
  if dir.any (fun f => f.name == n) then
    dir.map (fun f => if f.name == n then ⟨f.name, bs⟩ else f)
  else dir ++ [⟨n, bs⟩]

/-- One full run of the script on a working directory: the output file is
created or overwritten with the concatenation, encoded back to UTF-8. -/
def runScript (dir : List PFile) : Option (List PFile) :=
  match runOutput (getBytes dir output_file) dir with
  | none => none
  | some out => some (setFile dir output_file (utf8Encode out))

/-- What one matched file contributes to the output: its text decoded with
`errors="ignore"`, then the newline of `out.write("\n" + separator)`, then
the separator. -/
def contribution (f : PFile) : List Nat := utf8DecodeIgnore f.bytes ++ [10] ++ separator

/-! ### Basic lemmas about the embedding -/

theorem natListLe_refl : ∀ as, natListLe as as = true
  | [] => rfl
  | a :: as => by simp [natListLe, natListLe_refl as]

theorem natListLe_total : ∀ as bs, natListLe as bs = true ∨ natListLe bs as = true
  | [], _ => Or.inl rfl
  | _ :: _, [] => Or.inr rfl
  | a :: as, b :: bs => by
    rcases Nat.lt_trichotomy a b with h | h | h
    · left; simp [natListLe, h]
    · subst h
      rcases natListLe_total as bs with h2 | h2 <;> simp [natListLe, h2]
    · right; simp [natListLe, h]

theorem natListLe_trans : ∀ as bs cs, natListLe as bs = true → natListLe bs cs = true →
    natListLe as cs = true
  | [], _, _ => fun _ _ => rfl
  | _ :: _, [], _ => fun h _ => by simp [natListLe] at h
  | _ :: _, _ :: _, [] => fun _ h => by simp [natListLe] at h
  | a :: as, b :: bs, c :: cs => fun h₁ h₂ => by
    simp only [natListLe] at h₁ h₂ ⊢
    split_ifs at h₁ h₂ ⊢ <;>
      first
        | rfl
        | (exfalso; omega)
        | exact natListLe_trans as bs cs h₁ h₂

theorem natListLt_not_le : ∀ as bs, natListLt as bs = true → natListLe bs as = false
  | _, [] => fun h => by simp [natListLt] at h
  | [], _ :: _ => fun _ => rfl
  | a :: as, b :: bs => fun h => by
    simp only [natListLt] at h
    simp only [natListLe]
    split_ifs at h ⊢ <;>
      first
        | rfl
        | (exfalso; omega)
        | exact natListLt_not_le as bs h

instance : IsTotal PFile keyLe :=
  ⟨fun p q => natListLe_total (keyOf p) (keyOf q)⟩

instance : IsTrans PFile keyLe :=
  ⟨fun p q r => natListLe_trans (keyOf p) (keyOf q) (keyOf r)⟩


/-- With `errors="ignore"` no read fails, and the loop appends exactly each
file's contribution, in order, to what was already written. -/
theorem concatLoop_ignore (l : List PFile) (out : List Nat) :
    concatLoop .ignore l out = some (out ++ (l.map contribution).flatten) := by
  induction l generalizing out with
  | nil => simp [concatLoop]
  | cons f fs ih =>
    simp [concatLoop, readText, ih, contribution, separator, List.append_assoc]

/-- The write phase always succeeds and produces the concatenation of the
contributions of the matched files in sorted order, whatever the output
file held before. -/
theorem runOutput_eq (prev : List Nat) (dir : List PFile) :
    runOutput prev dir = some (((sortedFiles dir).map contribution).flatten) := by
  simp [runOutput, openedContent, concatLoop_ignore]

/-- The sorted file list is pairwise ordered by the lowercased-name key. -/
theorem sortedFiles_pairwise (dir : List PFile) :
    List.Pairwise keyLe (sortedFiles dir) :=
  List.sorted_insertionSort keyLe (globFiles dir)

/-- Sorting neither adds nor removes matched files. -/
theorem mem_sortedFiles {dir : List PFile} {f : PFile} :
    f ∈ sortedFiles dir ↔ f ∈ globFiles dir :=
  (List.perm_insertionSort keyLe (globFiles dir)).mem_iff

/-- In a list pairwise ordered by the key, an element strictly below another
splits the list with the smaller one first. -/
theorem sorted_split {l : List PFile} {f g : PFile}
    (hs : List.Pairwise keyLe l) (hf : f ∈ l) (hg : g ∈ l) (hgf : ¬ keyLe g f) :
    ∃ l₁ l₂ l₃, l = l₁ ++ f :: (l₂ ++ g :: l₃) := by
  induction l with
  | nil => cases hf
  | cons x xs ih =>
    rcases List.pairwise_cons.mp hs with ⟨hx, hxs⟩
    rcases List.mem_cons.mp hf with rfl | hf2
    · have hg2 : g ∈ xs := by
        rcases List.mem_cons.mp hg with rfl | hg2
        · exact absurd (natListLe_refl (keyOf g) : keyLe g g) hgf
        · exact hg2
      rcases List.append_of_mem hg2 with ⟨s, t, rfl⟩
      exact ⟨[], s, t, rfl⟩
    · have hg2 : g ∈ xs := by
        rcases List.mem_cons.mp hg with rfl | hg2
        · exact absurd (hx f hf2) hgf
        · exact hg2
      rcases ih hxs hf2 hg2 with ⟨l₁, l₂, l₃, rfl⟩
      exact ⟨x :: l₁, l₂, l₃, rfl⟩

/-! ### Glob matching is exactly a suffix test -/

/-- A pattern without wildcards matches exactly itself. -/
theorem fnmatchChars_lit : ∀ ps : List Char, '*' ∉ ps → '?' ∉ ps →
    ∀ cs : List Char, (fnmatchChars ps cs = true ↔ ps = cs) := by
  intro ps
  induction ps with
  | nil =>
    intro _ _ cs
    cases cs <;> simp [fnmatchChars]
  | cons p ps ih =>
    intro hstar hq cs
    have hp : p ≠ '*' := fun h => hstar (h ▸ List.mem_cons_self p ps)
    have hp2 : p ≠ '?' := fun h => hq (h ▸ List.mem_cons_self p ps)
    have hstar2 : '*' ∉ ps := fun h => hstar (List.mem_cons_of_mem p h)
    have hq2 : '?' ∉ ps := fun h => hq (List.mem_cons_of_mem p h)
    cases cs with
    | nil => simp [fnmatchChars, hp]
    | cons c cs2 =>
      simp [fnmatchChars, hp, hp2, ih hstar2 hq2 cs2]

/-- A leading `*` matches when the rest of the pattern matches some suffix. -/
theorem fnmatchChars_star (ps : List Char) (cs : List Char) :
    fnmatchChars ('*' :: ps) cs = cs.tails.any (fun t => fnmatchChars ps t) := by
  simp [fnmatchChars]

/-- `Path(".").glob("*CrudManager.java")` matches a name exactly when the name
ends with the literal string `CrudManager.java`. -/
theorem globMatchName_iff (n : String) :
    globMatchName n = true ↔ "CrudManager.java".data <:+ n.data := by
  have hpat : globPattern.data = '*' :: "CrudManager.java".data := rfl
  rw [globMatchName, hpat, fnmatchChars_star, List.any_eq_true]
  constructor
  · rintro ⟨t, ht, hm⟩
    have he := (fnmatchChars_lit _ (by decide) (by decide) t).mp hm
    exact he ▸ (List.mem_tails _ _).mp ht
  · intro h
    exact ⟨_, (List.mem_tails _ _).mpr h,
      (fnmatchChars_lit _ (by decide) (by decide) _).mpr rfl⟩

/-- The output file's name is not matched by the glob pattern. -/
theorem globMatchName_output : globMatchName output_file = false := by decide

/-! ### The output file never feeds back into the matched set -/

/-- Overwriting the output file inside the directory leaves the matched set
unchanged. -/
theorem globFiles_map_update (dir : List PFile) (bs : List Nat) :
    globFiles (dir.map fun f => if f.name == output_file then ⟨f.name, bs⟩ else f) =
      globFiles dir := by
  induction dir with
  | nil => rfl
  | cons f fs ih =>
    by_cases hf : f.name = output_file
    · have hglob : globMatchName f.name = false := by
        rw [hf]; exact globMatchName_output
      simp [globFiles, List.filter_cons, hf, hglob] at ih ⊢
      exact ih
    · have hf2 : (f.name == output_file) = false := by simp [hf]
      simp only [List.map_cons, hf2, if_neg, Bool.false_eq_true, not_false_iff, ite_false]
      simp [globFiles, List.filter_cons] at ih ⊢
      cases hg : globMatchName f.name <;> simp [hg, ih]

/-- Creating or overwriting the output file leaves the matched set unchanged. -/
theorem globFiles_setFile_output (dir : List PFile) (bs : List Nat) :
    globFiles (setFile dir output_file bs) = globFiles dir := by
  unfold setFile
  split
  · exact globFiles_map_update dir bs
  · simp [globFiles, List.filter_append, List.filter_cons, globMatchName_output]

/-- Creating or overwriting the output file leaves the sorted matched list
unchanged. -/
theorem sortedFiles_setFile_output (dir : List PFile) (bs : List Nat) :
    sortedFiles (setFile dir output_file bs) = sortedFiles dir := by
  unfold sortedFiles
  rw [globFiles_setFile_output]

/-! ### Reading back what `setFile` wrote -/

theorem getBytes_cons_self {f : PFile} (fs : List PFile) {n : String}
    (hf : (f.name == n) = true) : getBytes (f :: fs) n = f.bytes := by
  simp only [getBytes, List.find?, hf]

theorem getBytes_cons_of_ne {f : PFile} (fs : List PFile) {n : String}
    (hf : (f.name == n) = false) : getBytes (f :: fs) n = getBytes fs n := by
  simp only [getBytes, List.find?, hf]

theorem getBytes_map_update (dir : List PFile) (n : String) (bs : List Nat)
    (h : dir.any (fun f => f.name == n) = true) :
    getBytes (dir.map fun f => if f.name == n then ⟨f.name, bs⟩ else f) n = bs := by
  induction dir with
  | nil => simp at h
  | cons f fs ih =>
    rw [List.any_cons] at h
    by_cases hf : f.name = n
    · have hf2 : (f.name == n) = true := by simp [hf]
      simp only [List.map_cons, hf2, if_true]
      exact getBytes_cons_self _ (by simp [hf])
    · have hf2 : (f.name == n) = false := by simp [hf]
      have h2 : fs.any (fun f => f.name == n) = true := by
        rcases Bool.or_eq_true_iff.mp h with h1 | h1
        · exact absurd h1 (by simp [hf2])
        · exact h1
      simp only [List.map_cons, hf2, Bool.false_eq_true, if_false]
      rw [getBytes_cons_of_ne _ hf2]
      exact ih h2

theorem getBytes_append_new (dir : List PFile) (n : String) (bs : List Nat)
    (h : dir.any (fun f => f.name == n) = false) :
    getBytes (dir ++ [⟨n, bs⟩]) n = bs := by
  induction dir with
  | nil =>
    rw [List.nil_append]
    exact getBytes_cons_self _ (by simp)
  | cons f fs ih =>
    rw [List.any_cons] at h
    rcases Bool.or_eq_false_iff.mp h with ⟨h1, h2⟩
    rw [List.cons_append, getBytes_cons_of_ne _ h1]
    exact ih h2

/-- After `setFile dir n bs`, the file named `n` holds exactly `bs`. -/
theorem getBytes_setFile (dir : List PFile) (n : String) (bs : List Nat) :
    getBytes (setFile dir n bs) n = bs := by
  unfold setFile
  split
  · exact getBytes_map_update dir n bs (by assumption)
  · next h => exact getBytes_append_new dir n bs (Bool.eq_false_iff.mpr h)

/-- `setFile dir n bs` contains a file named `n` with content `bs`: the file
is created when absent, overwritten when present. -/
theorem setFile_mem (dir : List PFile) (n : String) (bs : List Nat) :
    ∃ f ∈ setFile dir n bs, f.name = n ∧ f.bytes = bs := by
  unfold setFile
  split
  case isTrue h =>
    rcases List.any_eq_true.mp h with ⟨f₀, hf₀, hname⟩
    have hname2 : f₀.name = n := by simpa using hname
    refine ⟨⟨f₀.name, bs⟩, ?_, hname2, rfl⟩
    exact List.mem_map.mpr ⟨f₀, hf₀, by simp [hname2]⟩
  case isFalse h =>
    exact ⟨⟨n, bs⟩, by simp, rfl, rfl⟩

/-- A successful run rewrites the directory to hold the encoded
concatenation under the output file's name. -/
theorem runScript_eq_some (dir dir₁ : List PFile) (h : runScript dir = some dir₁) :
    dir₁ = setFile dir output_file
      (utf8Encode (((sortedFiles dir).map contribution).flatten)) := by
  rw [runScript, runOutput_eq] at h
  exact (Option.some.inj h).symm

/-- `runScript` never fails. -/
theorem runScript_total (dir : List PFile) :
    runScript dir = some (setFile dir output_file
      (utf8Encode (((sortedFiles dir).map contribution).flatten))) := by
  rw [runScript, runOutput_eq]

/-! ### The claims -/

/-- C1: on every run, whatever the output file previously held, the text
written to the output file is exactly, for each matched file in sorted
order, that file's decoded content, then one newline, then 100 dash
characters, then one newline; this separator block stands between any two
concatenated contents and also after the last one. -/
theorem run_writes_content_then_separator (prev : List Nat) (dir : List PFile) :
    runOutput prev dir =
      some (((sortedFiles dir).map
        (fun f => utf8DecodeIgnore f.bytes ++ [10] ++
          (List.replicate 100 45 ++ [10]))).flatten) := by
  rw [runOutput_eq]
  rfl

/-- C2: if two matched files have strictly ordered lowercased names, the
first one's content block appears strictly before the second one's in the
output. -/
theorem run_sorted_case_insensitive (prev : List Nat) (dir : List PFile)
    (f g : PFile) (hf : f ∈ globFiles dir) (hg : g ∈ globFiles dir)
    (hlt : keyLt f g) :
    ∃ A B C, runOutput prev dir =
      some (A ++ (contribution f ++ (B ++ (contribution g ++ C)))) := by
  have hgf : ¬ keyLe g f := by
    intro hle
    have hle2 : natListLe (keyOf g) (keyOf f) = true := hle
    rw [natListLt_not_le (keyOf f) (keyOf g) hlt] at hle2
    exact Bool.false_ne_true hle2
  rcases sorted_split (sortedFiles_pairwise dir) (mem_sortedFiles.mpr hf)
      (mem_sortedFiles.mpr hg) hgf with ⟨l₁, l₂, l₃, hsplit⟩
  refine ⟨(l₁.map contribution).flatten, (l₂.map contribution).flatten,
    (l₃.map contribution).flatten, ?_⟩
  rw [runOutput_eq, hsplit]
  simp [List.map_append, List.flatten_append, List.append_assoc]

theorem run_sorted_case_insensitive_witness :
    ∃ A B C, runOutput [] [⟨"BCrudManager.java", [98]⟩, ⟨"aCrudManager.java", [97]⟩] =
      some (A ++ (contribution ⟨"aCrudManager.java", [97]⟩ ++
        (B ++ (contribution ⟨"BCrudManager.java", [98]⟩ ++ C)))) :=
  run_sorted_case_insensitive [] _ _ _ (by decide) (by decide) (by decide)

/-- C3 as stated fails on the code: with exactly `a.CrudManager`,
`B.CrudManager` and `c.txt` in the directory, no name ends in
`CrudManager.java`, so nothing is matched, the output is empty and neither
file's content appears in it. -/
theorem mixed_suffix_dir_matches_nothing :
    globFiles [⟨"a.CrudManager", [65]⟩, ⟨"B.CrudManager", [66]⟩, ⟨"c.txt", [67]⟩] = [] ∧
    runOutput [] [⟨"a.CrudManager", [65]⟩, ⟨"B.CrudManager", [66]⟩, ⟨"c.txt", [67]⟩] =
      some [] ∧
    ∀ A B : List Nat,
      runOutput [] [⟨"a.CrudManager", [65]⟩, ⟨"B.CrudManager", [66]⟩, ⟨"c.txt", [67]⟩] ≠
        some (A ++ (65 :: B)) := by
  refine ⟨by decide, by decide, ?_⟩
  intro A B h
  rw [show runOutput [] [⟨"a.CrudManager", [65]⟩, ⟨"B.CrudManager", [66]⟩,
      ⟨"c.txt", [67]⟩] = some [] from by decide] at h
  simp at h

/-- C3 amended: for a directory containing exactly `aCrudManager.java`,
`BCrudManager.java` and `c.txt`, only the two files whose names end in
`CrudManager.java` are included, in order `aCrudManager.java` then
`BCrudManager.java` (case-insensitive sort), and `c.txt` is excluded. -/
theorem java_suffix_dir_included_in_order :
    sortedFiles [⟨"BCrudManager.java", [66]⟩, ⟨"aCrudManager.java", [65]⟩,
        ⟨"c.txt", [67]⟩] =
      [⟨"aCrudManager.java", [65]⟩, ⟨"BCrudManager.java", [66]⟩] ∧
    runOutput [] [⟨"BCrudManager.java", [66]⟩, ⟨"aCrudManager.java", [65]⟩,
        ⟨"c.txt", [67]⟩] =
      some (([65] ++ [10] ++ separator) ++ ([66] ++ [10] ++ separator)) :=
  ⟨by decide, by decide⟩

/-- C4: running the script a second time on the unchanged directory (which
now also carries the output file written by the first run) succeeds and
writes a byte-identical output file. -/
theorem run_twice_same_output (dir dir₁ : List PFile)
    (h : runScript dir = some dir₁) :
    ∃ dir₂, runScript dir₁ = some dir₂ ∧
      getBytes dir₂ output_file = getBytes dir₁ output_file := by
  have h1 := runScript_eq_some dir dir₁ h
  have hsort : sortedFiles dir₁ = sortedFiles dir := by
    rw [h1]
    exact sortedFiles_setFile_output _ _
  refine ⟨_, runScript_total dir₁, ?_⟩
  rw [getBytes_setFile, hsort, h1, getBytes_setFile]

theorem run_twice_same_output_witness :
    ∃ dir₂, runScript [⟨"aCrudManager.java", [97]⟩,
        ⟨"allCrudManagers.txt", [97, 10] ++ List.replicate 100 45 ++ [10]⟩] = some dir₂ ∧
      getBytes dir₂ output_file =
        getBytes [⟨"aCrudManager.java", [97]⟩,
          ⟨"allCrudManagers.txt", [97, 10] ++ List.replicate 100 45 ++ [10]⟩] output_file :=
  run_twice_same_output [⟨"aCrudManager.java", [97]⟩] _ (by decide)

/-- C5: the text written in a run does not depend on what the output file
previously held: `open("w")` truncates, so any two prior contents give the
same output. -/
theorem output_ignores_prior_content (prev prev2 : List Nat) (dir : List PFile) :
    runOutput prev dir = runOutput prev2 dir := rfl

/-- C6: when no file matches the pattern, the run still creates or
overwrites the output file, and that file holds zero bytes. -/
theorem no_match_creates_empty_output (dir : List PFile)
    (h : globFiles dir = []) :
    runScript dir = some (setFile dir output_file []) ∧
      ∃ f ∈ setFile dir output_file [], f.name = output_file ∧ f.bytes = [] := by
  have hs : sortedFiles dir = [] := by rw [sortedFiles, h]; rfl
  constructor
  · rw [runScript_total dir, hs]
    rfl
  · exact setFile_mem dir output_file []

theorem no_match_creates_empty_output_witness :
    runScript [⟨"c.txt", [99]⟩] = some (setFile [⟨"c.txt", [99]⟩] output_file []) ∧
      ∃ f ∈ setFile [⟨"c.txt", [99]⟩] output_file [],
        f.name = output_file ∧ f.bytes = [] :=
  no_match_creates_empty_output [⟨"c.txt", [99]⟩] (by decide)

/-- C7: even when some matched file's bytes fail strict UTF-8 decoding, the
run does not abort: every read uses `errors="ignore"`, so the write phase
completes and every file still contributes its decoded text (undecodable
subparts dropped) followed by the separator, as usual. -/
theorem undecodable_input_run_completes (prev : List Nat) (dir : List PFile)
    (_h : ∃ f ∈ globFiles dir, utf8DecodeStrict f.bytes = none) :
    runOutput prev dir = some (((sortedFiles dir).map contribution).flatten) :=
  runOutput_eq prev dir

theorem undecodable_input_run_completes_witness :
    (runOutput [] [⟨"xCrudManager.java", [97, 255, 98]⟩] =
      some (((sortedFiles [⟨"xCrudManager.java", [97, 255, 98]⟩]).map
        contribution).flatten)) ∧
    utf8DecodeIgnore [97, 255, 98] = [97, 98] :=
  ⟨undecodable_input_run_completes [] _ (by decide), by decide⟩

/-- C8: glob matching is case-sensitive even though the ordering is
case-insensitive: a name is matched exactly when it ends with the literal
string `CrudManager.java`; in particular `aCrudmanager.java` and
`aCRUDMANAGER.JAVA` are not matched. -/
theorem glob_iff_name_suffix :
    (∀ n : String, globMatchName n = true ↔ "CrudManager.java".data <:+ n.data) ∧
    globMatchName "aCrudmanager.java" = false ∧
    globMatchName "aCRUDMANAGER.JAVA" = false :=
  ⟨globMatchName_iff, by decide, by decide⟩

theorem glob_iff_name_suffix_witness :
    globMatchName "SomeCrudManager.java" = true ∧
    globMatchName "aCrudmanager.java" = false :=
  ⟨(glob_iff_name_suffix.1 "SomeCrudManager.java").mpr (by decide),
    glob_iff_name_suffix.2.1⟩

/-- C9: the separator's 100 dashes always begin at the start of a line: a
newline is written unconditionally before them, so for every matched file —
whether or not its text ends with a newline — the output contains that
file's decoded text followed immediately by a newline and only then the
dash run. -/
theorem separator_starts_on_fresh_line (prev : List Nat) (dir : List PFile)
    (f : PFile) (hf : f ∈ globFiles dir) :
    ∃ A B, runOutput prev dir =
      some (A ++ (utf8DecodeIgnore f.bytes ++
        (10 :: (List.replicate 100 45 ++ (10 :: B))))) := by
  rcases List.append_of_mem (mem_sortedFiles.mpr hf) with ⟨s, t, hst⟩
  refine ⟨(s.map contribution).flatten, (t.map contribution).flatten, ?_⟩
  rw [runOutput_eq, hst]
  simp [contribution, separator, List.map_append, List.flatten_append,
    List.append_assoc]

theorem separator_starts_on_fresh_line_witness :
    ∃ A B, runOutput [] [⟨"aCrudManager.java", [97]⟩] =
      some (A ++ (utf8DecodeIgnore [97] ++
        (10 :: (List.replicate 100 45 ++ (10 :: B))))) :=
  separator_starts_on_fresh_line [] [⟨"aCrudManager.java", [97]⟩]
    ⟨"aCrudManager.java", [97]⟩ (by decide)

/-- C10: the output file is never one of the inputs: its fixed name does
not match the glob pattern, no matched file ever carries the output file's
name, and a run leaves the matched set unchanged — so on repeated runs the
output file's own content is never read back and concatenated into
itself. -/
theorem output_never_an_input :
    globMatchName output_file = false ∧
    (∀ (dir : List PFile) (f : PFile), f ∈ globFiles dir → f.name ≠ output_file) ∧
    (∀ dir dir₁ : List PFile, runScript dir = some dir₁ →
      globFiles dir₁ = globFiles dir) := by
  refine ⟨globMatchName_output, ?_, ?_⟩
  · intro dir f hf hname
    have hf2 : f ∈ dir.filter (fun x => globMatchName x.name) := hf
    have hp0 := List.of_mem_filter hf2
    have hp : globMatchName f.name = true := hp0
    rw [hname, globMatchName_output] at hp
    exact Bool.false_ne_true hp
  · intro dir dir₁ h
    rw [runScript_eq_some dir dir₁ h, globFiles_setFile_output]

theorem output_never_an_input_witness :
    globFiles [⟨"aCrudManager.java", [97]⟩,
        ⟨"allCrudManagers.txt", [97, 10] ++ List.replicate 100 45 ++ [10]⟩] =
      globFiles [⟨"aCrudManager.java", [97]⟩] :=
  output_never_an_input.2.2 [⟨"aCrudManager.java", [97]⟩] _ (by decide)

end Concat
